import Mathlib

/-!
Verification of the himalaya-cache CLI (src/main.rs) against its specification.

The development shallowly embeds the program:

* the JSON record types (`Account`, `Folder`, `Envelope`, `Contact`) become
  Lean structures;
* the cache directory layout becomes the inductive `CachePath`, and the
  filesystem becomes a map `CachePath → Option CacheFile` (path components
  are treated as opaque keys, matching the spec's "logical, not literal
  paths" contract);
* the external himalaya binary becomes a deterministic oracle `Agent`, and
  every invocation is recorded in a call trace;
* `run_sync` becomes a state-passing function over `SyncState`
  (filesystem, call trace, warning list), where filesystem write failures
  are driven by an environment predicate `writeOk`;
* the read side `list_cached_envelopes` is a function over an explicit
  directory listing, and chrono's `parse_from_str` with the fixed format
  string `%Y-%m-%d %H:%M%:z` is modelled by `parseDateString`, which maps a
  canonically formatted timestamp to its UTC instant (an `Int` minute
  count) and rejects everything else;
* the Rust `sort_by` call (a stable sort) is modelled by Mathlib's
  `List.insertionSort`, which is also stable, so both produce the same
  output for the same comparator.
-/

namespace HimalayaCache

/-! ## Data model (src/main.rs lines 114-145) -/

/-- Contact entry nested in an envelope. -/
structure Contact where
  name : Option String
  addr : Option String
  deriving DecidableEq, Repr

/-- Account entry from himalaya `account list -o json`. -/
structure Account where
  name : String
  backend : Option String
  default : Option Bool
  deriving DecidableEq, Repr

/-- Folder entry from himalaya `folder list -o json`. -/
structure Folder where
  name : String
  desc : Option String
  deriving DecidableEq, Repr

/-- Envelope entry from himalaya `envelope list -o json`.  The Rust fields
`from` and `to` are Lean keywords and are rendered `from'` and `to'`. -/
structure Envelope where
  id : String
  flags : Option (List String)
  subject : Option String
  from' : Option Contact
  to' : Option Contact
  date : Option String
  has_attachment : Option Bool
  deriving DecidableEq, Repr

/-! ## Date parsing (src/main.rs lines 379-384)

`parse_envelope_date` calls chrono's
`DateTime::parse_from_str(value, "%Y-%m-%d %H:%M%:z")`.  The model parses
the canonical rendering of that format (`YYYY-MM-DD HH:MM±HH:MM`),
validates the calendar fields exactly as chrono does (real month lengths,
leap years, hour/minute/offset ranges), and returns the UTC instant as a
count of minutes on an arbitrary fixed epoch.  chrono compares
`DateTime<FixedOffset>` values by their UTC instant, so this integer is
exactly the comparison key used by the sort in `list_cached_envelopes`. -/

/-- Numeric value of an ASCII digit, `none` on any other character. -/
def digitVal (c : Char) : Option Nat :=
  if '0' ≤ c ∧ c ≤ '9' then some (c.toNat - '0'.toNat) else none

/-- Gregorian leap-year rule. -/
def isLeapYear (y : Nat) : Bool :=
  y % 4 == 0 && (y % 100 != 0 || y % 400 == 0)

/-- Number of days in a month. -/
def daysInMonth (month : Nat) (leap : Bool) : Nat :=
  match month with
  | 1 => 31
  | 2 => if leap then 29 else 28
  | 3 => 31
  | 4 => 30
  | 5 => 31
  | 6 => 30
  | 7 => 31
  | 8 => 31
  | 9 => 30
  | 10 => 31
  | 11 => 30
  | 12 => 31
  | _ => 0

/-- Days elapsed in the year before the given month starts. -/
def daysBeforeMonth (month : Nat) (leap : Bool) : Nat :=
  (match month with
   | 1 => 0
   | 2 => 31
   | 3 => 59
   | 4 => 90
   | 5 => 120
   | 6 => 151
   | 7 => 181
   | 8 => 212
   | 9 => 243
   | 10 => 273
   | 11 => 304
   | 12 => 334
   | _ => 0)
  + (if leap && decide (month > 2) then 1 else 0)

/-- Days from 0000-01-01 to the given proleptic-Gregorian date. -/
def daysFromYear0 (y month day : Nat) : Nat :=
  365 * y + (y + 3) / 4 - (y + 99) / 100 + (y + 399) / 400
    + daysBeforeMonth month (isLeapYear y) + (day - 1)

/-- Validate the parsed calendar fields and produce the UTC instant in
minutes, `none` if any field is out of range (chrono rejects such input). -/
def mkDateKey (y month day hour minute : Nat) (offMinutes : Int) : Option Int :=
  if 1 ≤ month ∧ month ≤ 12 ∧ 1 ≤ day ∧ day ≤ daysInMonth month (isLeapYear y)
      ∧ hour ≤ 23 ∧ minute ≤ 59 then
    some (((daysFromYear0 y month day : Int) * 24 + (hour : Int)) * 60
      + (minute : Int) - offMinutes)
  else
    none

/-- Model of chrono `DateTime::parse_from_str` with format
`"%Y-%m-%d %H:%M%:z"`: a 4-digit year, 2-digit month/day/hour/minute, and a
signed `±HH:MM` UTC-offset suffix, with chrono's range validation (offset
hours below 24, minutes below 60, valid calendar date).  Any string not in
this shape fails to parse. -/
def twoDigits (cs : List Char) (i : Nat) : Option Nat :=
  match cs[i]?.bind digitVal, cs[i + 1]?.bind digitVal with
  | some a, some b => some (a * 10 + b)
  | _, _ => none

def fourDigits (cs : List Char) (i : Nat) : Option Nat :=
  match twoDigits cs i, twoDigits cs (i + 2) with
  | some a, some b => some (a * 100 + b)
  | _, _ => none

def parseDateString (s : String) : Option Int :=
  let cs := s.data
  if cs.length = 22 ∧ cs[4]? = some '-' ∧ cs[7]? = some '-'
      ∧ cs[10]? = some ' ' ∧ cs[13]? = some ':' ∧ cs[19]? = some ':' then
    (fourDigits cs 0).bind fun yv =>
    (twoDigits cs 5).bind fun mv =>
    (twoDigits cs 8).bind fun dv =>
    (twoDigits cs 11).bind fun hv =>
    (twoDigits cs 14).bind fun nv =>
    (cs[16]?).bind fun sg =>
    (twoDigits cs 17).bind fun ov =>
    (twoDigits cs 20).bind fun pv =>
    if ov > 23 ∨ pv > 59 then
      none
    else if sg = '+' then
      mkDateKey yv mv dv hv nv ((ov * 60 + pv : Nat) : Int)
    else if sg = '-' then
      mkDateKey yv mv dv hv nv (-((ov * 60 + pv : Nat) : Int))
    else
      none
  else
    none

/-- Model of `parse_envelope_date` (src/main.rs lines 379-384):
`envelope.date.as_deref().and_then(parse)`. -/
def parse_envelope_date (e : Envelope) : Option Int :=
  e.date.bind parseDateString

/-! ## Envelope ordering (src/main.rs lines 368-372)

The Rust sort comparator is `right_date.cmp(&left_date)` on
`Option<DateTime<FixedOffset>>`; Rust's `Option` ordering puts `None`
first, so the sort is descending with missing/unparseable dates ranked as
the minimum. -/

/-- Rust `Option::cmp`-induced less-or-equal on the date key:
`none` is the minimum. -/
def optDateLe : Option Int → Option Int → Bool
  | none, _ => true
  | some _, none => false
  | some x, some y => decide (x ≤ y)

/-- The sort relation used by `list_cached_envelopes`: `envRank x y` holds
when `x` may come before `y`, i.e. `x`'s date key is at least `y`'s
(descending order). -/
def envRank (x y : Envelope) : Prop :=
  optDateLe (parse_envelope_date y) (parse_envelope_date x) = true

instance : DecidableRel envRank :=
  fun _ _ => inferInstanceAs (Decidable (_ = true))

instance : IsTotal Envelope envRank :=
  ⟨fun a b => by
    unfold envRank
    cases parse_envelope_date a <;> cases parse_envelope_date b <;>
      simp [optDateLe] <;> omega⟩

instance : IsTrans Envelope envRank :=
  ⟨fun a b c => by
    unfold envRank
    cases parse_envelope_date a <;> cases parse_envelope_date b <;>
      cases parse_envelope_date c <;> simp [optDateLe] <;> omega⟩
/-! ## Read side: `list_cached_envelopes` (src/main.rs lines 348-377)

The function iterates over the directory entries of
`<root>/meta/<account>/<folder>`, skips entries whose file extension is not
`json`, reads and parses each remaining file as an `Envelope` (an
unparsable file aborts the listing with an error naming the path), and
sorts the result.  The model takes the directory listing as an explicit
list: each entry carries its file name and the outcome of parsing its
contents (`none` = serde_json would fail). -/

/-- A directory entry of the metadata directory: the entry's file name and
the result of parsing the file's contents as an `Envelope`. -/
structure DirEntry where
  name : String
  parse : Option Envelope
  deriving DecidableEq, Repr

/-- Errors of the read-side listing.  `decodeError` names the offending
file by its full path components (cache meta directory = account+folder,
plus the entry's file name), mirroring the Rust context string
`format!("parse {}", path.display())`. -/
inductive ListError where
  | decodeError (account folder entryName : String)
  deriving DecidableEq, Repr

/-- Split a character list on the dot character. -/
def splitOnDots : List Char → List (List Char)
  | [] => [[]]
  | c :: rest =>
    let ps := splitOnDots rest
    if c = '.' then [] :: ps
    else
      match ps with
      | [] => [[c]]
      | p :: ps' => (c :: p) :: ps'

/-- Rust `Path::extension` on a file name: the portion after the last dot,
unless there is no dot or the only dot is the leading character (a hidden
file such as `.json` has no extension in Rust). -/
def rustExtension (name : String) : Option String :=
  match splitOnDots name.data with
  | [] => none
  | [_] => none
  | [[], _] => none
  | _ :: rest =>
    match rest.getLast? with
    | none => none
    | some ext => some (String.mk ext)

/-- The collection loop of `list_cached_envelopes` (src/main.rs lines
355-366): skip entries without a `json` extension, abort on the first
entry that fails to parse, otherwise accumulate envelopes in directory
order. -/
def collectEnvelopes (account folder : String) :
    List DirEntry → Except ListError (List Envelope)
  | [] => .ok []
  | ent :: rest =>
    if rustExtension ent.name ≠ some "json" then
      collectEnvelopes account folder rest
    else
      match ent.parse with
      | none => .error (.decodeError account folder ent.name)
      | some e =>
        match collectEnvelopes account folder rest with
        | .error err => .error err
        | .ok es => .ok (e :: es)

/-- Model of `list_cached_envelopes` (src/main.rs lines 348-377): collect
the parsed envelopes, then sort with the descending-date comparator.  Rust
`sort_by` is a stable sort, as is `List.insertionSort`, so the model
computes the same output list. -/
def list_cached_envelopes (account folder : String) (entries : List DirEntry) :
    Except ListError (List Envelope) :=
  match collectEnvelopes account folder entries with
  | .error err => .error err
  | .ok envelopes => .ok (List.insertionSort envRank envelopes)
/-- Sample envelope dated 2024-01-01 10:00+00:00. -/
def sampleOld : Envelope :=
  ⟨"1", none, none, none, none, some "2024-01-01 10:00+00:00", none⟩

/-- Sample envelope dated 2024-03-05 09:00+00:00. -/
def sampleNew : Envelope :=
  ⟨"2", none, none, none, none, some "2024-03-05 09:00+00:00", none⟩

/-- Sample envelope with no date field. -/
def sampleNoDate : Envelope :=
  ⟨"3", none, none, none, none, none, none⟩

/-- Metadata directory listing holding the three sample envelopes. -/
def sampleEntries : List DirEntry :=
  [⟨"1.json", some sampleOld⟩, ⟨"2.json", some sampleNew⟩,
   ⟨"3.json", some sampleNoDate⟩]
/-! ## Cache layout and sync state (src/main.rs lines 386-593)

The cache layout of `run_sync` maps logical entities to deterministic
paths under the cache root.  Path components (account, folder, envelope
id) are treated as opaque keys, per the spec's "logical, not literal
paths" directory contract:

* `accounts.json`                      — `CachePath.accounts`
* `folders/<account>.json`             — `CachePath.folders account`
* `envelopes/<account>/<folder>.json`  — `CachePath.envelopes account folder`
* `meta/<account>/<folder>/<id>.json`  — `CachePath.meta account folder id`
* `messages/<account>/<folder>/<id>.eml` — `CachePath.message account folder id`
-/

/-- Logical cache path of every file `run_sync` reads or writes. -/
inductive CachePath where
  | accounts
  | folders (account : String)
  | envelopes (account folder : String)
  | meta (account folder id : String)
  | message (account folder id : String)
  deriving DecidableEq, Repr

/-- Contents of a cache file, one constructor per logical entity.
`write_json` serializes the value; the model stores the value itself. -/
inductive CacheFile where
  | accountList (accounts : List Account)
  | folderList (folders : List Folder)
  | envelopeList (envelopes : List Envelope)
  | envelopeMeta (envelope : Envelope)
  | messageFile (bytes : List Nat)
  deriving DecidableEq, Repr

/-- The cache filesystem: which file, if any, each cache path holds. -/
def FS : Type := CachePath → Option CacheFile

/-- Overwrite one path of the filesystem (Rust `fs::write`). -/
def fsWrite (fs : FS) (p : CachePath) (v : CacheFile) : FS :=
  fun q => if q = p then some v else fs q

/-- One external himalaya invocation, as issued by `run_sync`
(`run_himalaya_json` / `run_himalaya_raw` argument vectors). -/
inductive AgentCall where
  | accountList
  | folderList (account : String)
  | envelopeList (account folder : String)
  | messageRead (id folder account : String)
  deriving DecidableEq, Repr

/-- Deterministic oracle for the external himalaya binary: the final
result of each retried invocation (`Except` error = the invocation failed
after the retry budget, carrying the rendered error). -/
structure Agent where
  accountList : Except String (List Account)
  folderList : String → Except String (List Folder)
  envelopeList : String → String → Except String (List Envelope)
  messageRead : String → String → String → Except String (List Nat)

/-- Static environment of one sync run: the agent oracle, whether the
cache root directory can be created, and which paths accept writes
(`writeOk p = false` models a filesystem error when writing `p`). -/
structure Env where
  agent : Agent
  rootOk : Bool
  writeOk : CachePath → Bool

/-- Warnings printed by `run_sync` on recoverable failures, carrying the
identifying data of the eprintln messages. -/
inductive Warning where
  | fetchFolders (account : String) (err : String)
  | fetchEnvelopes (account folder : String) (err : String)
  | writeMeta (account folder id : String)
  | readMessage (id account folder : String) (err : String)
  | writeMessage (account folder id : String)
  deriving DecidableEq, Repr

/-- Fatal errors of `run_sync` (propagated with `?` in the Rust source). -/
inductive SyncError where
  | invalidScope
  | cacheDirUnavailable
  | fetchAccountList (err : String)
  | writeFile (path : CachePath)
  deriving DecidableEq, Repr

/-- Mutable state threaded through one sync run: the filesystem, whether
the cache root has been created, the agent call trace, and the warnings
emitted so far. -/
structure SyncState where
  fs : FS
  rootCreated : Bool
  calls : List AgentCall
  warnings : List Warning

/-- Result of a sync stage: the state reached, plus the fatal error when
the stage aborted the run. -/
structure SyncOutcome where
  error : Option SyncError
  state : SyncState

/-- Scope flags of the sync subcommand (src/main.rs lines 39-47). -/
structure SyncArgs where
  account : Option String
  folder : Option String

/-- Per-envelope step of the parallel fan-out (src/main.rs lines 489-547):
write the metadata record (on failure: warn and skip the body step), then,
only when the message body file does not already exist, fetch the raw body
and write it (each failure: warn and move on).  Failures here never abort
the run. -/
def processEnvelope (env : Env) (account folder : String) (st : SyncState)
    (e : Envelope) : SyncState :=
  if env.writeOk (.meta account folder e.id) then
    let st1 : SyncState :=
      { st with fs := fsWrite st.fs (.meta account folder e.id) (.envelopeMeta e) }
    match st1.fs (.message account folder e.id) with
    | some _ => st1
    | none =>
      let st2 : SyncState :=
        { st1 with calls := st1.calls ++ [.messageRead e.id folder account] }
      match env.agent.messageRead e.id folder account with
      | .error err =>
        { st2 with warnings := st2.warnings ++ [.readMessage e.id account folder err] }
      | .ok bytes =>
        if env.writeOk (.message account folder e.id) then
          { st2 with
            fs := fsWrite st2.fs (.message account folder e.id) (.messageFile bytes) }
        else
          { st2 with warnings := st2.warnings ++ [.writeMessage account folder e.id] }
  else
    { st with warnings := st.warnings ++ [.writeMeta account folder e.id] }

/-- Per-folder step (src/main.rs lines 444-550): fetch the envelope list
(on failure: warn and continue with the next folder), persist the snapshot
(on failure: fatal), then run the per-envelope fan-out. -/
def syncFolder (env : Env) (account folder : String) (st : SyncState) :
    SyncOutcome :=
  let st1 : SyncState := { st with calls := st.calls ++ [.envelopeList account folder] }
  match env.agent.envelopeList account folder with
  | .error err =>
    ⟨none, { st1 with warnings := st1.warnings ++ [.fetchEnvelopes account folder err] }⟩
  | .ok envelopes =>
    if env.writeOk (.envelopes account folder) then
      let st2 : SyncState :=
        { st1 with
          fs := fsWrite st1.fs (.envelopes account folder) (.envelopeList envelopes) }
      ⟨none, envelopes.foldl (processEnvelope env account folder) st2⟩
    else
      ⟨some (.writeFile (.envelopes account folder)), st1⟩

/-- The sequential folder loop of one account. -/
def syncFolderList (env : Env) (account : String) :
    List String → SyncState → SyncOutcome
  | [], st => ⟨none, st⟩
  | folder :: rest, st =>
    match syncFolder env account folder st with
    | ⟨some err, st'⟩ => ⟨some err, st'⟩
    | ⟨none, st'⟩ => syncFolderList env account rest st'

/-- Per-account step (src/main.rs lines 413-442): resolve the folder set —
scoped folder used directly (no fetch, no overwrite), otherwise fetch the
folder list (on failure: warn and continue with the next account) and
persist it (on failure: fatal) — then process the folders. -/
def syncAccount (env : Env) (scopeFolder : Option String) (account : String)
    (st : SyncState) : SyncOutcome :=
  match scopeFolder with
  | some folder => syncFolderList env account [folder] st
  | none =>
    let st1 : SyncState := { st with calls := st.calls ++ [.folderList account] }
    match env.agent.folderList account with
    | .error err =>
      ⟨none, { st1 with warnings := st1.warnings ++ [.fetchFolders account err] }⟩
    | .ok folders =>
      if env.writeOk (.folders account) then
        let st2 : SyncState :=
          { st1 with fs := fsWrite st1.fs (.folders account) (.folderList folders) }
        syncFolderList env account (folders.map Folder.name) st2
      else
        ⟨some (.writeFile (.folders account)), st1⟩

/-- The sequential account loop. -/
def syncAccountList (env : Env) (scopeFolder : Option String) :
    List String → SyncState → SyncOutcome
  | [], st => ⟨none, st⟩
  | account :: rest, st =>
    match syncAccount env scopeFolder account st with
    | ⟨some err, st'⟩ => ⟨some err, st'⟩
    | ⟨none, st'⟩ => syncAccountList env scopeFolder rest st'

/-- Model of `run_sync` (src/main.rs lines 386-553): validate the scope
(folder without account is a usage error, checked before any I/O), create
the cache root, resolve the account set — scoped account used directly (no
fetch, no overwrite), otherwise fetch the account list (failure fatal) and
persist it (failure fatal) — then process the accounts. -/
def run_sync (env : Env) (args : SyncArgs) (fs0 : FS) : SyncOutcome :=
  let st0 : SyncState := ⟨fs0, false, [], []⟩
  if args.folder.isSome ∧ args.account.isNone then
    ⟨some .invalidScope, st0⟩
  else if env.rootOk then
    let st1 : SyncState := { st0 with rootCreated := true }
    match args.account with
    | some account => syncAccountList env args.folder [account] st1
    | none =>
      let st2 : SyncState := { st1 with calls := st1.calls ++ [.accountList] }
      match env.agent.accountList with
      | .error err => ⟨some (.fetchAccountList err), st2⟩
      | .ok accounts =>
        if env.writeOk .accounts then
          let st3 : SyncState :=
            { st2 with fs := fsWrite st2.fs .accounts (.accountList accounts) }
          syncAccountList env args.folder (accounts.map Account.name) st3
        else
          ⟨some (.writeFile .accounts), st2⟩
  else
    ⟨some .cacheDirUnavailable, st0⟩
/-! ## Retrying agent invoker (src/main.rs lines 607-632)

`run_himalaya_with_retry` loops `for attempt in 1..=3`: spawn the process
(a spawn failure propagates immediately with `?` — never retried); on a
zero exit status return the captured output; on a non-zero exit status
record stderr and, when `attempt < 3`, sleep 2500 ms; after the loop fail
with the last stderr, trimmed.  The model takes the outcome of each
attempt as a function of the attempt number and returns the number of
process spawns, the list of sleeps performed (one entry per sleep, each
the fixed millisecond amount), and the final result.  The loop is bounded
by the constant 3, so it is translated by unrolling the three iterations. -/

/-- Captured result of one completed process run. -/
structure ProcOutput where
  success : Bool
  stdout : List Nat
  stderr : String
  deriving DecidableEq, Repr

/-- Outcome of one attempt: the spawn failed, or the process ran to
completion with captured output. -/
inductive AttemptOutcome where
  | launchFailure (msg : String)
  | completed (out : ProcOutput)
  deriving DecidableEq, Repr

/-- Errors of the retrying invoker: a spawn failure (surfaced at once), or
command failure after all retry attempts, carrying the trimmed stderr of
the final attempt. -/
inductive RetryError where
  | launch (msg : String)
  | command (stderr : String)
  deriving DecidableEq, Repr

/-- Fixed backoff interval between failed attempts, in milliseconds
(`Duration::from_millis(2500)`). -/
def backoffMillis : Nat := 2500

/-- Observable trace of one retried invocation: how many times the
process was spawned and the sleeps performed (each entry one backoff). -/
structure RetryTrace where
  attempts : Nat
  sleeps : List Nat
  deriving DecidableEq, Repr

/-- Model of `run_himalaya_with_retry`: the `1..=3` loop, unrolled.
`attemptOutcome n` is the outcome of the n-th attempt (1-based). -/
def run_himalaya_with_retry (attemptOutcome : Nat → AttemptOutcome) :
    RetryTrace × Except RetryError ProcOutput :=
  match attemptOutcome 1 with
  | .launchFailure msg => (⟨1, []⟩, .error (.launch msg))
  | .completed o1 =>
    if o1.success then (⟨1, []⟩, .ok o1)
    else
      match attemptOutcome 2 with
      | .launchFailure msg => (⟨2, [backoffMillis]⟩, .error (.launch msg))
      | .completed o2 =>
        if o2.success then (⟨2, [backoffMillis]⟩, .ok o2)
        else
          match attemptOutcome 3 with
          | .launchFailure msg =>
            (⟨3, [backoffMillis, backoffMillis]⟩, .error (.launch msg))
          | .completed o3 =>
            if o3.success then (⟨3, [backoffMillis, backoffMillis]⟩, .ok o3)
            else
              (⟨3, [backoffMillis, backoffMillis]⟩,
                .error (.command o3.stderr.trim))

/-! ## Derived observables of the per-envelope step

The following definitions restate the three observable effects of
`processEnvelope` (filesystem delta, agent calls issued, warnings emitted)
as standalone functions with the same branch structure; the lemma
`processEnvelope_eq` below proves that `processEnvelope` decomposes into
them.  They drive the frame/commutation reasoning for the fan-out. -/

/-- Filesystem effect of one per-envelope step. -/
def stepFS (env : Env) (account folder : String) (fs : FS) (e : Envelope) : FS :=
  if env.writeOk (.meta account folder e.id) then
    let fs1 := fsWrite fs (.meta account folder e.id) (.envelopeMeta e)
    match fs1 (.message account folder e.id) with
    | some _ => fs1
    | none =>
      match env.agent.messageRead e.id folder account with
      | .error _ => fs1
      | .ok bytes =>
        if env.writeOk (.message account folder e.id) then
          fsWrite fs1 (.message account folder e.id) (.messageFile bytes)
        else
          fs1
  else
    fs

/-- Agent calls issued by one per-envelope step. -/
def callDelta (env : Env) (account folder : String) (fs : FS) (e : Envelope) :
    List AgentCall :=
  if env.writeOk (.meta account folder e.id) then
    let fs1 := fsWrite fs (.meta account folder e.id) (.envelopeMeta e)
    match fs1 (.message account folder e.id) with
    | some _ => []
    | none => [.messageRead e.id folder account]
  else
    []

/-- Warnings emitted by one per-envelope step. -/
def warnDelta (env : Env) (account folder : String) (fs : FS) (e : Envelope) :
    List Warning :=
  if env.writeOk (.meta account folder e.id) then
    let fs1 := fsWrite fs (.meta account folder e.id) (.envelopeMeta e)
    match fs1 (.message account folder e.id) with
    | some _ => []
    | none =>
      match env.agent.messageRead e.id folder account with
      | .error err => [.readMessage e.id account folder err]
      | .ok _ =>
        if env.writeOk (.message account folder e.id) then []
        else [.writeMessage account folder e.id]
  else
    [.writeMeta account folder e.id]

/-- Agent calls issued by the whole fan-out over an envelope list. -/
def foldCallDelta (env : Env) (account folder : String) (fs : FS) :
    List Envelope → List AgentCall
  | [] => []
  | e :: rest =>
    callDelta env account folder fs e
      ++ foldCallDelta env account folder (stepFS env account folder fs e) rest

/-- Value of the message-body path after one per-envelope step whose
metadata write succeeded, as a function of its previous value: an existing
body is kept; otherwise the fetched body is written when both the fetch
and the write succeed. -/
def bodyStep (env : Env) (account folder : String) (e : Envelope) :
    Option CacheFile → Option CacheFile
  | some c => some c
  | none =>
    match env.agent.messageRead e.id folder account with
    | .error _ => none
    | .ok bytes =>
      if env.writeOk (.message account folder e.id) then
        some (.messageFile bytes)
      else
        none

/-- Invariant for the body-cache claims: the body file at
`messages/<a>/<f>/<id>.eml` holds `c` and no raw read for that id has been
issued. -/
def BodyCached (a f id : String) (c : CacheFile) (st : SyncState) : Prop :=
  st.fs (.message a f id) = some c ∧ AgentCall.messageRead id f a ∉ st.calls

/-- Agent oracle answering every call with an empty successful list. -/
def agentOkEmpty : Agent :=
  ⟨.ok [], fun _ => .ok [], fun _ _ => .ok [], fun _ _ _ => .ok []⟩

/-- Agent oracle with one account named "w" and otherwise empty data. -/
def agentOneAccount : Agent :=
  ⟨.ok [⟨"w", none, none⟩], fun _ => .ok [], fun _ _ => .ok [],
    fun _ _ _ => .ok []⟩

/-! ## Read-side theorems -/
/-! ## Read-side lemmas -/

/-- When every metadata file with a `json` extension parses, the collection
loop succeeds and returns exactly the parsed envelopes of the `json`
entries, in directory order. -/
theorem collectEnvelopes_ok (account folder : String) :
    ∀ entries : List DirEntry,
      (∀ ent ∈ entries, rustExtension ent.name = some "json" → ent.parse ≠ none) →
      collectEnvelopes account folder entries =
        .ok (entries.filterMap fun ent =>
          if rustExtension ent.name = some "json" then ent.parse else none)
  | [], _ => rfl
  | ent :: rest, hp => by
    have hrest := collectEnvelopes_ok account folder rest
      (fun e he hj => hp e (List.mem_cons_of_mem _ he) hj)
    by_cases hext : rustExtension ent.name = some "json"
    · cases hpar : ent.parse with
      | none => exact absurd hpar (hp ent (List.mem_cons_self _ _) hext)
      | some e =>
        simp only [collectEnvelopes, if_neg (not_not_intro hext), hpar, hrest,
          List.filterMap_cons, if_pos hext]
    · simp only [collectEnvelopes, if_pos hext, hrest, List.filterMap_cons,
        if_neg hext]

/-- In the descending rank order, anything ranked after a missing or
unparseable date also has a missing or unparseable date. -/
theorem envRank_none {x y : Envelope} (h : envRank x y)
    (hx : parse_envelope_date x = none) : parse_envelope_date y = none := by
  unfold envRank at h
  rw [hx] at h
  cases hy : parse_envelope_date y with
  | none => rfl
  | some v => rw [hy] at h; simp [optDateLe] at h
/-- C1: for every set of parseable envelope metadata files,
`list_cached_envelopes` succeeds and returns the envelopes sorted by
parsed date descending; envelopes whose date is absent or unparseable rank
as the minimum and so appear after every envelope with a parseable date;
and on the three concrete sample envelopes (2024-01-01, 2024-03-05, and
one missing date) the output order is [2024-03-05, 2024-01-01, missing]. -/
theorem c1_list_envelopes_sorted_desc :
    (∀ (account folder : String) (entries : List DirEntry),
      (∀ ent ∈ entries, rustExtension ent.name = some "json" → ent.parse ≠ none) →
      ∃ out, list_cached_envelopes account folder entries = .ok out ∧
        List.Sorted envRank out ∧
        out.Perm (entries.filterMap fun ent =>
          if rustExtension ent.name = some "json" then ent.parse else none) ∧
        out.Pairwise (fun x y =>
          parse_envelope_date x = none → parse_envelope_date y = none)) ∧
    list_cached_envelopes "acct" "INBOX" sampleEntries
      = .ok [sampleNew, sampleOld, sampleNoDate] := by
  constructor
  · intro account folder entries hp
    refine ⟨List.insertionSort envRank
      (entries.filterMap fun ent =>
        if rustExtension ent.name = some "json" then ent.parse else none),
      ?_, ?_, ?_, ?_⟩
    · unfold list_cached_envelopes
      rw [collectEnvelopes_ok account folder entries hp]
    · exact List.sorted_insertionSort envRank _
    · exact List.perm_insertionSort envRank _
    · exact List.Pairwise.imp (fun h hx => envRank_none h hx)
        (List.sorted_insertionSort envRank _)
  · rfl

/-- C1 witness: the general statement applied to the concrete sample
directory, whose hypothesis (every json file parses) holds by computation. -/
theorem c1_list_envelopes_sorted_desc_witness :
    (∀ ent ∈ sampleEntries,
      rustExtension ent.name = some "json" → ent.parse ≠ none) ∧
    (∃ out, list_cached_envelopes "acct" "INBOX" sampleEntries = .ok out ∧
      List.Sorted envRank out ∧
      out.Perm (sampleEntries.filterMap fun ent =>
        if rustExtension ent.name = some "json" then ent.parse else none) ∧
      out.Pairwise (fun x y =>
        parse_envelope_date x = none → parse_envelope_date y = none)) :=
  ⟨by decide, c1_list_envelopes_sorted_desc.1 "acct" "INBOX" sampleEntries
    (by decide)⟩

/-- Filtering the listing to the `json` entries does not change the
result: non-json entries are skipped. -/
theorem collectEnvelopes_filter (account folder : String) :
    ∀ entries : List DirEntry,
      collectEnvelopes account folder
          (entries.filter fun ent => decide (rustExtension ent.name = some "json"))
        = collectEnvelopes account folder entries
  | [] => rfl
  | ent :: rest => by
    have ih := collectEnvelopes_filter account folder rest
    by_cases hext : rustExtension ent.name = some "json"
    · rw [List.filter_cons_of_pos (by simpa using hext)]
      simp only [collectEnvelopes, if_neg (not_not_intro hext)]
      cases hpar : ent.parse with
      | none => rfl
      | some e => rw [ih]
    · rw [List.filter_cons_of_neg (by simpa using hext)]
      rw [ih]
      exact (by simp only [collectEnvelopes, if_pos hext] :
        collectEnvelopes account folder (ent :: rest)
          = collectEnvelopes account folder rest).symm

/-- The collection loop aborts with the offending path on the first json
entry that fails to parse. -/
theorem collectEnvelopes_error (account folder : String) (bad : DirEntry)
    (hext : rustExtension bad.name = some "json") (hbad : bad.parse = none) :
    ∀ (l1 : List DirEntry) (l2 : List DirEntry),
      (∀ ent ∈ l1, rustExtension ent.name = some "json" → ent.parse ≠ none) →
      collectEnvelopes account folder (l1 ++ bad :: l2)
        = .error (.decodeError account folder bad.name)
  | [], l2, _ => by
    simp only [List.nil_append, collectEnvelopes, if_neg (not_not_intro hext), hbad]
  | ent :: l1', l2, hp => by
    have ih := collectEnvelopes_error account folder bad hext hbad l1' l2
      (fun e he hj => hp e (List.mem_cons_of_mem _ he) hj)
    by_cases hj : rustExtension ent.name = some "json"
    · cases hpar : ent.parse with
      | none => exact absurd hpar (hp ent (List.mem_cons_self _ _) hj)
      | some e =>
        simp only [List.cons_append, collectEnvelopes,
          if_neg (not_not_intro hj), hpar, List.append_eq, ih]
    · simp only [List.cons_append, collectEnvelopes, if_pos hj,
        List.append_eq, ih]

/-- C9: `list_cached_envelopes` skips directory entries without a `json`
extension (the listing over the json-filtered entries is the same), and a
single metadata file that fails to parse aborts the whole listing with a
decode error naming the offending file — no skip-and-continue, no output
sequence. -/
theorem c9_listing_skips_nonjson_and_aborts_on_decode :
    (∀ (account folder : String) (entries : List DirEntry),
      list_cached_envelopes account folder entries =
        list_cached_envelopes account folder
          (entries.filter fun ent =>
            decide (rustExtension ent.name = some "json"))) ∧
    (∀ (account folder : String) (l1 l2 : List DirEntry) (bad : DirEntry),
      rustExtension bad.name = some "json" → bad.parse = none →
      (∀ ent ∈ l1, rustExtension ent.name = some "json" → ent.parse ≠ none) →
      list_cached_envelopes account folder (l1 ++ bad :: l2)
        = .error (.decodeError account folder bad.name)) := by
  constructor
  · intro account folder entries
    unfold list_cached_envelopes
    rw [collectEnvelopes_filter account folder entries]
  · intro account folder l1 l2 bad hext hbad hp
    unfold list_cached_envelopes
    rw [collectEnvelopes_error account folder bad hext hbad l1 l2 hp]

/-- C9 witness: a directory with one skipped non-json entry followed by an
unparsable json entry aborts with the decode error naming that entry. -/
theorem c9_listing_skips_nonjson_and_aborts_on_decode_witness :
    rustExtension "bad.json" = some "json" ∧
    list_cached_envelopes "acct" "INBOX"
        [⟨"notes.txt", none⟩, ⟨"bad.json", none⟩]
      = .error (.decodeError "acct" "INBOX" "bad.json") :=
  ⟨by decide,
    c9_listing_skips_nonjson_and_aborts_on_decode.2 "acct" "INBOX"
      [⟨"notes.txt", none⟩] [] ⟨"bad.json", none⟩ (by decide) rfl (by decide)⟩

/-! ## Retry and sync theorems -/

/-- C3: when the external command runs but exits non-zero on all
attempts, the invoker spawns exactly 3 times, sleeps the fixed 2.5-second
backoff exactly twice (after the first and second failures, not the
third), and fails carrying the stderr of the final attempt trimmed of
surrounding whitespace. -/
theorem c3_retry_exhaustion (attemptOutcome : Nat → AttemptOutcome)
    (o1 o2 o3 : ProcOutput)
    (h1 : attemptOutcome 1 = .completed o1) (f1 : o1.success = false)
    (h2 : attemptOutcome 2 = .completed o2) (f2 : o2.success = false)
    (h3 : attemptOutcome 3 = .completed o3) (f3 : o3.success = false) :
    run_himalaya_with_retry attemptOutcome
      = (⟨3, [backoffMillis, backoffMillis]⟩,
          .error (.command o3.stderr.trim)) := by
  unfold run_himalaya_with_retry
  simp [h1, h2, h3, f1, f2, f3]

/-- C3 witness: three concrete failing attempts. -/
theorem c3_retry_exhaustion_witness :
    run_himalaya_with_retry
        (fun _ => .completed ⟨false, [], " oops "⟩)
      = (⟨3, [backoffMillis, backoffMillis]⟩,
          .error (.command (String.trim " oops "))) :=
  c3_retry_exhaustion (fun _ => .completed ⟨false, [], " oops "⟩)
    ⟨false, [], " oops "⟩ ⟨false, [], " oops "⟩ ⟨false, [], " oops "⟩
    rfl rfl rfl rfl rfl rfl

/-! ## Sync theorems -/

/-- C4: a sync scoped to a folder without an account fails with the
usage error before any I/O: no agent call is made, the cache root is not
created, and the filesystem is untouched. -/
theorem c4_folder_scope_requires_account (env : Env) (fs0 : FS) (folder : String)
    (account? : Option String) (hnone : account? = none) :
    run_sync env ⟨account?, some folder⟩ fs0
      = ⟨some .invalidScope, ⟨fs0, false, [], []⟩⟩ := by
  subst hnone
  rfl

/-- C4 witness: the theorem at a concrete environment and folder. -/
theorem c4_folder_scope_requires_account_witness :
    run_sync
        ⟨⟨.error "net", fun _ => .error "net", fun _ _ => .error "net",
          fun _ _ _ => .error "net"⟩, true, fun _ => true⟩
        ⟨none, some "INBOX"⟩ (fun _ => none)
      = ⟨some .invalidScope, ⟨fun _ => none, false, [], []⟩⟩ :=
  c4_folder_scope_requires_account _ _ "INBOX" none rfl

/-- C5: in the account loop of an unscoped-folder sync, a folder-list
fetch failure for the first account is not fatal: the loop's result is
exactly the result of the loop over the remaining accounts, started from
the state with the failed call recorded and a warning naming the account
appended — the cache, and every sibling account's processing, is
untouched by the failure. -/
theorem c5_folder_fetch_failure_is_per_account (env : Env)
    (w err : String) (rest : List String) (st : SyncState)
    (hf : env.agent.folderList w = .error err) :
    syncAccountList env none (w :: rest) st
      = syncAccountList env none rest
          { st with calls := st.calls ++ [.folderList w],
                    warnings := st.warnings ++ [.fetchFolders w err] } := by
  simp [syncAccountList, syncAccount, hf]

/-- C5 witness: a concrete two-account run where the folder-list fetch
fails for account "work" and the loop continues with account "home". -/
theorem c5_folder_fetch_failure_is_per_account_witness :
    (Agent.folderList
        ⟨.ok [], fun a => if a = "work" then .error "down" else .ok [],
          fun _ _ => .ok [], fun _ _ _ => .ok []⟩ "work" = .error "down") ∧
    syncAccountList
        ⟨⟨.ok [], fun a => if a = "work" then .error "down" else .ok [],
          fun _ _ => .ok [], fun _ _ _ => .ok []⟩, true, fun _ => true⟩
        none ["work", "home"] ⟨fun _ => none, true, [], []⟩
      = syncAccountList
          ⟨⟨.ok [], fun a => if a = "work" then .error "down" else .ok [],
            fun _ _ => .ok [], fun _ _ _ => .ok []⟩, true, fun _ => true⟩
          none ["home"]
          ⟨fun _ => none, true, [.folderList "work"],
            [.fetchFolders "work" "down"]⟩ :=
  ⟨rfl, c5_folder_fetch_failure_is_per_account _ "work" "down" ["home"]
    ⟨fun _ => none, true, [], []⟩ rfl⟩

/-- C10: a filesystem write failure while persisting a fetched list file
is fatal and aborts the run immediately.  Three scenarios, one per list
file: the account list, an account's folder list (with a second account
that is then never reached), and an account+folder envelope snapshot. -/
theorem c10_list_write_failures_fatal :
    (∀ (env : Env) (fs0 : FS) (accounts : List Account),
      env.rootOk = true →
      env.agent.accountList = .ok accounts →
      env.writeOk .accounts = false →
      run_sync env ⟨none, none⟩ fs0
        = ⟨some (.writeFile .accounts), ⟨fs0, true, [.accountList], []⟩⟩) ∧
    (∀ (env : Env) (fs0 : FS) (accounts : List Account)
        (a1 : String) (rest : List String) (folders : List Folder),
      env.rootOk = true →
      env.agent.accountList = .ok accounts →
      env.writeOk .accounts = true →
      accounts.map Account.name = a1 :: rest →
      env.agent.folderList a1 = .ok folders →
      env.writeOk (.folders a1) = false →
      run_sync env ⟨none, none⟩ fs0
        = ⟨some (.writeFile (.folders a1)),
            ⟨fsWrite fs0 .accounts (.accountList accounts), true,
              [.accountList, .folderList a1], []⟩⟩) ∧
    (∀ (env : Env) (fs0 : FS) (a f : String) (envelopes : List Envelope),
      env.rootOk = true →
      env.agent.envelopeList a f = .ok envelopes →
      env.writeOk (.envelopes a f) = false →
      run_sync env ⟨some a, some f⟩ fs0
        = ⟨some (.writeFile (.envelopes a f)),
            ⟨fs0, true, [.envelopeList a f], []⟩⟩) := by
  refine ⟨?_, ?_, ?_⟩
  · intro env fs0 accounts hroot hacc hw
    simp [run_sync, hroot, hacc, hw]
  · intro env fs0 accounts a1 rest folders hroot hacc hwacc hnames hfl hw
    simp [run_sync, hroot, hacc, hwacc, hnames, syncAccountList, syncAccount,
      hfl, hw]
  · intro env fs0 a f envelopes hroot henv hw
    simp [run_sync, hroot, syncAccountList, syncAccount, syncFolderList,
      syncFolder, henv, hw]

/-- C10 witness: the three scenarios at concrete environments whose
`writeOk` rejects exactly the relevant list path. -/
theorem c10_list_write_failures_fatal_witness :
    run_sync ⟨agentOkEmpty, true, fun p => decide (p ≠ .accounts)⟩
        ⟨none, none⟩ (fun _ => none)
      = ⟨some (.writeFile .accounts),
          ⟨fun _ => none, true, [.accountList], []⟩⟩ ∧
    run_sync ⟨agentOneAccount, true, fun p => decide (p ≠ .folders "w")⟩
        ⟨none, none⟩ (fun _ => none)
      = ⟨some (.writeFile (.folders "w")),
          ⟨fsWrite (fun _ => none) .accounts (.accountList [⟨"w", none, none⟩]),
            true, [.accountList, .folderList "w"], []⟩⟩ ∧
    run_sync ⟨agentOkEmpty, true, fun p => decide (p ≠ .envelopes "a" "f")⟩
        ⟨some "a", some "f"⟩ (fun _ => none)
      = ⟨some (.writeFile (.envelopes "a" "f")),
          ⟨fun _ => none, true, [.envelopeList "a" "f"], []⟩⟩ :=
  ⟨c10_list_write_failures_fatal.1 _ _ [] rfl rfl (by decide),
    c10_list_write_failures_fatal.2.1 _ _ [⟨"w", none, none⟩] "w" [] []
      rfl rfl (by decide) rfl rfl (by decide),
    c10_list_write_failures_fatal.2.2 _ _ "a" "f" [] rfl rfl (by decide)⟩

/-! ## Fan-out lemmas -/

theorem fsWrite_self (fs : FS) (p : CachePath) (v : CacheFile) :
    fsWrite fs p v p = some v := by
  simp [fsWrite]

theorem fsWrite_ne (fs : FS) (p : CachePath) (v : CacheFile) {q : CachePath}
    (h : q ≠ p) : fsWrite fs p v q = fs q := by
  simp [fsWrite, h]

/-- The per-envelope step decomposes into its filesystem, call and
warning effects. -/
theorem processEnvelope_eq (env : Env) (account folder : String)
    (st : SyncState) (e : Envelope) :
    processEnvelope env account folder st e
      = ⟨stepFS env account folder st.fs e, st.rootCreated,
          st.calls ++ callDelta env account folder st.fs e,
          st.warnings ++ warnDelta env account folder st.fs e⟩ := by
  unfold processEnvelope stepFS callDelta warnDelta
  by_cases hw : env.writeOk (.meta account folder e.id)
  · cases hm : fsWrite st.fs (.meta account folder e.id) (.envelopeMeta e)
      (.message account folder e.id) with
    | some c => simp [hw, hm]
    | none =>
      cases ha : env.agent.messageRead e.id folder account with
      | error err => simp [hw, hm, ha]
      | ok bytes =>
        by_cases hw2 : env.writeOk (.message account folder e.id) <;>
          simp [hw, hm, ha, hw2]
  · simp [hw]

/-- Filesystem of the fan-out, as a fold of the filesystem effect. -/
theorem foldl_fs_eq (env : Env) (account folder : String) :
    ∀ (l : List Envelope) (st : SyncState),
      (l.foldl (processEnvelope env account folder) st).fs
        = l.foldl (stepFS env account folder) st.fs
  | [], _ => rfl
  | e :: rest, st => by
    rw [List.foldl_cons, List.foldl_cons, processEnvelope_eq]
    exact foldl_fs_eq env account folder rest _

/-- Call trace of the fan-out: the previous trace plus the folded call
effects. -/
theorem foldl_calls_eq (env : Env) (account folder : String) :
    ∀ (l : List Envelope) (st : SyncState),
      (l.foldl (processEnvelope env account folder) st).calls
        = st.calls ++ foldCallDelta env account folder st.fs l
  | [], st => by simp [foldCallDelta]
  | e :: rest, st => by
    rw [List.foldl_cons, processEnvelope_eq]
    rw [foldl_calls_eq env account folder rest _]
    simp [foldCallDelta, List.append_assoc]

theorem stepFS_not_writeOk (env : Env) (account folder : String) (fs : FS)
    (e : Envelope) (hw : env.writeOk (.meta account folder e.id) = false) :
    stepFS env account folder fs e = fs := by
  simp [stepFS, hw]

/-- The per-envelope step only writes the envelope's own two paths. -/
theorem stepFS_frame (env : Env) (account folder : String) (fs : FS)
    (e : Envelope) {p : CachePath} (h1 : p ≠ .meta account folder e.id)
    (h2 : p ≠ .message account folder e.id) :
    stepFS env account folder fs e p = fs p := by
  unfold stepFS
  by_cases hw : env.writeOk (.meta account folder e.id)
  · cases hm : fsWrite fs (.meta account folder e.id) (.envelopeMeta e)
        (.message account folder e.id) with
    | some c => simp [hw, hm, fsWrite_ne _ _ _ h1]
    | none =>
      cases ha : env.agent.messageRead e.id folder account with
      | error err => simp [hw, hm, ha, fsWrite_ne _ _ _ h1]
      | ok bytes =>
        by_cases hw2 : env.writeOk (.message account folder e.id) <;>
          simp [hw, hm, ha, hw2, fsWrite_ne _ _ _ h1, fsWrite_ne _ _ _ h2]
  · simp [hw]

theorem stepFS_meta (env : Env) (account folder : String) (fs : FS)
    (e : Envelope) (hw : env.writeOk (.meta account folder e.id) = true) :
    stepFS env account folder fs e (.meta account folder e.id)
      = some (.envelopeMeta e) := by
  unfold stepFS
  have hne : (CachePath.meta account folder e.id)
      ≠ .message account folder e.id := by simp
  cases hm : fsWrite fs (.meta account folder e.id) (.envelopeMeta e)
      (.message account folder e.id) with
  | some c => simp [hw, hm, fsWrite_self]
  | none =>
    cases ha : env.agent.messageRead e.id folder account with
    | error err => simp [hw, hm, ha, fsWrite_self]
    | ok bytes =>
      by_cases hw2 : env.writeOk (.message account folder e.id) <;>
        simp [hw, hm, ha, hw2, fsWrite_ne _ _ _ hne, fsWrite_self]

theorem stepFS_message (env : Env) (account folder : String) (fs : FS)
    (e : Envelope) (hw : env.writeOk (.meta account folder e.id) = true) :
    stepFS env account folder fs e (.message account folder e.id)
      = bodyStep env account folder e (fs (.message account folder e.id)) := by
  unfold stepFS bodyStep
  have hne : (CachePath.message account folder e.id)
      ≠ .meta account folder e.id := by simp
  have hfs1 : fsWrite fs (.meta account folder e.id) (.envelopeMeta e)
      (.message account folder e.id) = fs (.message account folder e.id) :=
    fsWrite_ne _ _ _ hne
  cases hm : fs (.message account folder e.id) with
  | some c => simp [hw, hfs1, hm]
  | none =>
    cases ha : env.agent.messageRead e.id folder account with
    | error err => simp [hw, hfs1, hm, ha]
    | ok bytes =>
      by_cases hw2 : env.writeOk (.message account folder e.id) <;>
        simp [hw, hfs1, hm, ha, hw2, fsWrite_self]

/-- Filesystem effects of two envelopes with distinct ids commute. -/
theorem stepFS_comm (env : Env) (account folder : String)
    (e1 e2 : Envelope) (hid : e1.id ≠ e2.id) (fs : FS) :
    stepFS env account folder (stepFS env account folder fs e1) e2
      = stepFS env account folder (stepFS env account folder fs e2) e1 := by
  cases hb1 : env.writeOk (.meta account folder e1.id) with
  | false =>
    rw [stepFS_not_writeOk env account folder fs e1 hb1,
      stepFS_not_writeOk env account folder _ e1 hb1]
  | true =>
    cases hb2 : env.writeOk (.meta account folder e2.id) with
    | false =>
      rw [stepFS_not_writeOk env account folder _ e2 hb2,
        stepFS_not_writeOk env account folder fs e2 hb2]
    | true =>
      funext p
      by_cases p1 : p = .meta account folder e1.id
      · subst p1
        rw [stepFS_frame env account folder _ e2 (by simp [hid]) (by simp),
          stepFS_meta env account folder fs e1 hb1,
          stepFS_meta env account folder _ e1 hb1]
      · by_cases p2 : p = .meta account folder e2.id
        · subst p2
          rw [stepFS_frame env account folder _ e1 (by simp [hid.symm]) (by simp),
            stepFS_meta env account folder fs e2 hb2,
            stepFS_meta env account folder _ e2 hb2]
        · by_cases p3 : p = .message account folder e1.id
          · subst p3
            rw [stepFS_frame env account folder _ e2 (by simp) (by simp [hid]),
              stepFS_message env account folder fs e1 hb1,
              stepFS_message env account folder _ e1 hb1,
              stepFS_frame env account folder fs e2 (by simp) (by simp [hid])]
          · by_cases p4 : p = .message account folder e2.id
            · subst p4
              rw [stepFS_frame env account folder _ e1 (by simp) (by simp [hid.symm]),
                stepFS_message env account folder fs e2 hb2,
                stepFS_message env account folder _ e2 hb2,
                stepFS_frame env account folder fs e1 (by simp) (by simp [hid.symm])]
            · rw [stepFS_frame env account folder _ e2 p2 p4,
                stepFS_frame env account folder fs e1 p1 p3,
                stepFS_frame env account folder _ e1 p1 p3,
                stepFS_frame env account folder fs e2 p2 p4]

/-- A permutation of envelopes with pairwise-distinct ids folds the
filesystem effect to the same final filesystem. -/
theorem foldl_stepFS_perm (env : Env) (account folder : String) (fs : FS)
    {l1 l2 : List Envelope} (hperm : l1.Perm l2)
    (hids : l1.Pairwise fun x y => x.id ≠ y.id) :
    l1.foldl (stepFS env account folder) fs
      = l2.foldl (stepFS env account folder) fs := by
  refine hperm.foldl_eq' (fun x hx y hy z => ?_) fs
  rcases eq_or_ne x y with rfl | hne
  · rfl
  · exact stepFS_comm env account folder x y
      (List.Pairwise.forall (fun _ _ h => h.symm) hids hx hy hne) z

/-- C6: for a fetched envelope list with pairwise-distinct ids, the final
set of cache files produced by the per-envelope fan-out is the same under
every permutation of the processing order; and each envelope's step
writes only the two paths keyed by its own id. -/
theorem c6_fanout_order_independent :
    (∀ (env : Env) (account folder : String) (st : SyncState)
        (l1 l2 : List Envelope),
      l1.Perm l2 → (l1.Pairwise fun x y => x.id ≠ y.id) →
      (l1.foldl (processEnvelope env account folder) st).fs
        = (l2.foldl (processEnvelope env account folder) st).fs) ∧
    (∀ (env : Env) (account folder : String) (st : SyncState) (e : Envelope)
        (p : CachePath),
      p ≠ .meta account folder e.id → p ≠ .message account folder e.id →
      (processEnvelope env account folder st e).fs p = st.fs p) := by
  constructor
  · intro env account folder st l1 l2 hperm hids
    rw [foldl_fs_eq, foldl_fs_eq]
    exact foldl_stepFS_perm env account folder st.fs hperm hids
  · intro env account folder st e p h1 h2
    rw [processEnvelope_eq]
    exact stepFS_frame env account folder st.fs e h1 h2

/-- C6 witness: two sample envelopes with distinct ids processed in both
orders yield the same filesystem. -/
theorem c6_fanout_order_independent_witness :
    [sampleOld, sampleNew].Perm [sampleNew, sampleOld] ∧
    ([sampleOld, sampleNew].Pairwise fun x y => x.id ≠ y.id) ∧
    ([sampleOld, sampleNew].foldl
        (processEnvelope ⟨agentOkEmpty, true, fun _ => true⟩ "a" "f")
        ⟨fun _ => none, true, [], []⟩).fs
      = ([sampleNew, sampleOld].foldl
          (processEnvelope ⟨agentOkEmpty, true, fun _ => true⟩ "a" "f")
          ⟨fun _ => none, true, [], []⟩).fs :=
  ⟨by decide, by decide,
    c6_fanout_order_independent.1 ⟨agentOkEmpty, true, fun _ => true⟩ "a" "f"
      ⟨fun _ => none, true, [], []⟩ [sampleOld, sampleNew]
      [sampleNew, sampleOld] (by decide) (by decide)⟩

/-! ## Body-cache immutability lemmas (claim C2) -/

/-- A step never issues a raw read for an id whose body file exists. -/
theorem callDelta_not_messageRead (env : Env) (a' f' : String) (fs : FS)
    (e : Envelope) {a f id : String} {c : CacheFile}
    (hc : fs (.message a f id) = some c) :
    AgentCall.messageRead id f a ∉ callDelta env a' f' fs e := by
  unfold callDelta
  by_cases hw : env.writeOk (.meta a' f' e.id)
  · cases hm : fsWrite fs (.meta a' f' e.id) (.envelopeMeta e)
        (.message a' f' e.id) with
    | some c2 => simp [hw, hm]
    | none =>
      simp only [hw, if_true, hm, List.mem_singleton]
      intro h
      obtain ⟨hida, hfa, haa⟩ : id = e.id ∧ f = f' ∧ a = a' := by
        cases h
        exact ⟨rfl, rfl, rfl⟩
      subst hida
      subst hfa
      subst haa
      rw [fsWrite_ne _ _ _ (by simp), hc] at hm
      cases hm
  · simp [hw]

/-- A step leaves an already-present body file in place. -/
theorem stepFS_msg_some (env : Env) (a' f' : String) (fs : FS) (e : Envelope)
    {a f id : String} {c : CacheFile} (hc : fs (.message a f id) = some c) :
    stepFS env a' f' fs e (.message a f id) = some c := by
  by_cases hmem : (CachePath.message a' f' e.id) = .message a f id
  · cases hb : env.writeOk (.meta a' f' e.id) with
    | false => rw [stepFS_not_writeOk env a' f' fs e hb]; exact hc
    | true =>
      rw [← hmem, stepFS_message env a' f' fs e hb, hmem, hc]
      rfl
  · rw [stepFS_frame env a' f' fs e (by simp) (fun h => hmem h.symm)]
    exact hc

theorem processEnvelope_bodyCached (env : Env) (a' f' : String)
    (st : SyncState) (e : Envelope) {a f id : String} {c : CacheFile}
    (h : BodyCached a f id c st) :
    BodyCached a f id c (processEnvelope env a' f' st e) := by
  obtain ⟨hfs, hcall⟩ := h
  rw [processEnvelope_eq]
  refine ⟨stepFS_msg_some env a' f' st.fs e hfs, ?_⟩
  simp only [List.mem_append, not_or]
  exact ⟨hcall, callDelta_not_messageRead env a' f' st.fs e hfs⟩

theorem foldl_bodyCached (env : Env) (a' f' : String) {a f id : String}
    {c : CacheFile} :
    ∀ (l : List Envelope) (st : SyncState), BodyCached a f id c st →
      BodyCached a f id c (l.foldl (processEnvelope env a' f') st)
  | [], _, h => h
  | e :: rest, st, h =>
    foldl_bodyCached env a' f' rest _
      (processEnvelope_bodyCached env a' f' st e h)

theorem syncFolder_bodyCached (env : Env) (a' f' : String) (st : SyncState)
    {a f id : String} {c : CacheFile} (h : BodyCached a f id c st) :
    BodyCached a f id c (syncFolder env a' f' st).state := by
  obtain ⟨hfs, hcall⟩ := h
  have hcall1 : AgentCall.messageRead id f a
      ∉ st.calls ++ [AgentCall.envelopeList a' f'] := by
    simp [hcall]
  unfold syncFolder
  cases he : env.agent.envelopeList a' f' with
  | error err => exact ⟨hfs, hcall1⟩
  | ok envs =>
    by_cases hw : env.writeOk (.envelopes a' f')
    · simp only [hw, if_true]
      refine foldl_bodyCached env a' f' envs _ ⟨?_, hcall1⟩
      show fsWrite st.fs (.envelopes a' f') (.envelopeList envs)
        (.message a f id) = some c
      rw [fsWrite_ne _ _ _ (by simp)]
      exact hfs
    · simp only [hw, if_false]
      exact ⟨hfs, hcall1⟩

theorem syncFolderList_bodyCached (env : Env) (a' : String)
    {a f id : String} {c : CacheFile} :
    ∀ (fls : List String) (st : SyncState), BodyCached a f id c st →
      BodyCached a f id c (syncFolderList env a' fls st).state
  | [], _, h => h
  | f' :: rest, st, h => by
    unfold syncFolderList
    rcases hsf : syncFolder env a' f' st with ⟨err?, st'⟩
    have h' : BodyCached a f id c st' := by
      have := syncFolder_bodyCached env a' f' st h
      rw [hsf] at this
      exact this
    cases err? with
    | some e => exact h'
    | none => exact syncFolderList_bodyCached env a' rest st' h'

theorem syncAccount_bodyCached (env : Env) (sf : Option String) (a' : String)
    (st : SyncState) {a f id : String} {c : CacheFile}
    (h : BodyCached a f id c st) :
    BodyCached a f id c (syncAccount env sf a' st).state := by
  obtain ⟨hfs, hcall⟩ := h
  cases sf with
  | some folder =>
    exact syncFolderList_bodyCached env a' [folder] st ⟨hfs, hcall⟩
  | none =>
    have hcall1 : AgentCall.messageRead id f a
        ∉ st.calls ++ [AgentCall.folderList a'] := by
      simp [hcall]
    unfold syncAccount
    cases hl : env.agent.folderList a' with
    | error err => exact ⟨hfs, hcall1⟩
    | ok folders =>
      by_cases hw : env.writeOk (.folders a')
      · simp only [hw, if_true]
        refine syncFolderList_bodyCached env a' (folders.map Folder.name) _
          ⟨?_, hcall1⟩
        show fsWrite st.fs (.folders a') (.folderList folders)
          (.message a f id) = some c
        rw [fsWrite_ne _ _ _ (by simp)]
        exact hfs
      · simp only [hw, if_false]
        exact ⟨hfs, hcall1⟩

theorem syncAccountList_bodyCached (env : Env) (sf : Option String)
    {a f id : String} {c : CacheFile} :
    ∀ (accs : List String) (st : SyncState), BodyCached a f id c st →
      BodyCached a f id c (syncAccountList env sf accs st).state
  | [], _, h => h
  | a' :: rest, st, h => by
    unfold syncAccountList
    rcases hsa : syncAccount env sf a' st with ⟨err?, st'⟩
    have h' : BodyCached a f id c st' := by
      have := syncAccount_bodyCached env sf a' st h
      rw [hsa] at this
      exact this
    cases err? with
    | some e => exact h'
    | none => exact syncAccountList_bodyCached env sf rest st' h'

/-- A whole sync run keeps an existing body file and never issues a raw
read for it. -/
theorem run_sync_bodyCached (env : Env) (args : SyncArgs) (fs0 : FS)
    {a f id : String} {c : CacheFile} (hc : fs0 (.message a f id) = some c) :
    BodyCached a f id c (run_sync env args fs0).state := by
  unfold run_sync
  by_cases hscope : args.folder.isSome ∧ args.account.isNone
  · simp only [hscope, if_true]
    exact ⟨hc, List.not_mem_nil _⟩
  · simp only [hscope, if_false]
    cases hroot : env.rootOk with
    | false => exact ⟨hc, List.not_mem_nil _⟩
    | true =>
      simp only [if_true]
      cases args.account with
      | some account =>
        exact syncAccountList_bodyCached env args.folder [account] _
          ⟨hc, List.not_mem_nil _⟩
      | none =>
        cases hacc : env.agent.accountList with
        | error err => exact ⟨hc, by simp⟩
        | ok accounts =>
          by_cases hw : env.writeOk .accounts
          · simp only [hw, if_true]
            refine syncAccountList_bodyCached env args.folder
              (accounts.map Account.name) _ ⟨?_, by simp⟩
            show fsWrite fs0 .accounts (.accountList accounts)
              (.message a f id) = some c
            rw [fsWrite_ne _ _ _ (by simp)]
            exact hc
          · simp only [hw, if_false]
            exact ⟨hc, by simp⟩

/-- C2: an envelope whose message body file exists at sync time is never
re-fetched (no raw read call is issued for its id) and its body file is
never overwritten; consequently a second sync run over the filesystem
produced by a first run issues zero raw reads for the ids the first run
cached and leaves those body files unchanged. -/
theorem c2_cached_bodies_never_refetched :
    (∀ (env : Env) (args : SyncArgs) (fs0 : FS) (a f id : String)
        (c : CacheFile),
      fs0 (.message a f id) = some c →
      (run_sync env args fs0).state.fs (.message a f id) = some c ∧
        AgentCall.messageRead id f a ∉ (run_sync env args fs0).state.calls) ∧
    (∀ (env : Env) (args : SyncArgs) (fs0 : FS) (a f id : String),
      (run_sync env args fs0).state.fs (.message a f id) ≠ none →
      (run_sync env args
            ((run_sync env args fs0).state.fs)).state.fs (.message a f id)
          = (run_sync env args fs0).state.fs (.message a f id) ∧
        AgentCall.messageRead id f a
          ∉ (run_sync env args
              ((run_sync env args fs0).state.fs)).state.calls) := by
  constructor
  · intro env args fs0 a f id c hc
    exact run_sync_bodyCached env args fs0 hc
  · intro env args fs0 a f id hne
    obtain ⟨c, hc⟩ := Option.ne_none_iff_exists'.mp hne
    obtain ⟨h1, h2⟩ := run_sync_bodyCached env args
      ((run_sync env args fs0).state.fs) hc
    exact ⟨h1.trans hc.symm, h2⟩

/-- C2 witness: a filesystem already holding one body file, run through a
sync with a concrete environment. -/
theorem c2_cached_bodies_never_refetched_witness :
    ((fun p => if p = CachePath.message "a" "f" "1"
        then some (CacheFile.messageFile [65]) else none) :
      FS) (.message "a" "f" "1") = some (.messageFile [65]) ∧
    ((run_sync ⟨agentOkEmpty, true, fun _ => true⟩ ⟨none, none⟩
        (fun p => if p = CachePath.message "a" "f" "1"
          then some (CacheFile.messageFile [65]) else none)).state.fs
        (.message "a" "f" "1") = some (.messageFile [65]) ∧
      AgentCall.messageRead "1" "f" "a"
        ∉ (run_sync ⟨agentOkEmpty, true, fun _ => true⟩ ⟨none, none⟩
            (fun p => if p = CachePath.message "a" "f" "1"
              then some (CacheFile.messageFile [65]) else none)).state.calls) :=
  ⟨by decide,
    c2_cached_bodies_never_refetched.1 ⟨agentOkEmpty, true, fun _ => true⟩
      ⟨none, none⟩ _ "a" "f" "1" (.messageFile [65]) (by decide)⟩

/-! ## Call-trace and filesystem frame lemmas (claim C7) -/

theorem mem_callDelta (env : Env) (a f : String) (fs : FS) (e : Envelope)
    {c' : AgentCall} (h : c' ∈ callDelta env a f fs e) :
    c' = .messageRead e.id f a := by
  unfold callDelta at h
  by_cases hw : env.writeOk (.meta a f e.id)
  · rw [if_pos hw] at h
    cases hm : fsWrite fs (.meta a f e.id) (.envelopeMeta e)
        (.message a f e.id) with
    | some c2 =>
      simp only [hm] at h
      exact absurd h (List.not_mem_nil _)
    | none =>
      simp only [hm] at h
      exact List.mem_singleton.mp h
  · rw [if_neg hw] at h
    exact absurd h (List.not_mem_nil _)

theorem mem_foldCallDelta (env : Env) (a f : String) :
    ∀ (l : List Envelope) (fs : FS) (c' : AgentCall),
      c' ∈ foldCallDelta env a f fs l → ∃ id, c' = .messageRead id f a
  | [], _, _, h => absurd h (List.not_mem_nil _)
  | e :: rest, fs, c', h => by
    simp only [foldCallDelta] at h
    rcases List.mem_append.mp h with h1 | h2
    · exact ⟨e.id, mem_callDelta env a f fs e h1⟩
    · exact mem_foldCallDelta env a f rest _ c' h2

theorem syncFolder_calls_sub (env : Env) (a f : String) (st : SyncState)
    (c' : AgentCall) (h : c' ∈ (syncFolder env a f st).state.calls) :
    c' ∈ st.calls ∨ c' = .envelopeList a f
      ∨ ∃ id, c' = .messageRead id f a := by
  revert h
  unfold syncFolder
  cases he : env.agent.envelopeList a f with
  | error err =>
    intro h
    rcases List.mem_append.mp h with h1 | h2
    · exact .inl h1
    · exact .inr (.inl (List.mem_singleton.mp h2))
  | ok envs =>
    by_cases hw : env.writeOk (.envelopes a f)
    · simp only [hw, if_true]
      intro h
      rw [foldl_calls_eq] at h
      rcases List.mem_append.mp h with h1 | h2
      · rcases List.mem_append.mp h1 with h3 | h4
        · exact .inl h3
        · exact .inr (.inl (List.mem_singleton.mp h4))
      · exact .inr (.inr (mem_foldCallDelta env a f envs _ c' h2))
    · simp only [hw, if_false]
      intro h
      rcases List.mem_append.mp h with h1 | h2
      · exact .inl h1
      · exact .inr (.inl (List.mem_singleton.mp h2))

theorem syncFolderList_calls_sub (env : Env) (a : String) :
    ∀ (fls : List String) (st : SyncState) (c' : AgentCall),
      c' ∈ (syncFolderList env a fls st).state.calls →
      c' ∈ st.calls
        ∨ ∃ f, (c' = .envelopeList a f ∨ ∃ id, c' = .messageRead id f a)
  | [], _, _, h => .inl h
  | f' :: rest, st, c', h => by
    revert h
    unfold syncFolderList
    rcases hsf : syncFolder env a f' st with ⟨err?, st'⟩
    have hsub : c' ∈ st'.calls →
        c' ∈ st.calls
          ∨ ∃ f, (c' = .envelopeList a f ∨ ∃ id, c' = .messageRead id f a) := by
      intro h1
      rcases syncFolder_calls_sub env a f' st c' (by rw [hsf]; exact h1) with
        ha | hb | hc
      exacts [.inl ha, .inr ⟨f', .inl hb⟩, .inr ⟨f', .inr hc⟩]
    cases err? with
    | some e => exact hsub
    | none =>
      intro h
      rcases syncFolderList_calls_sub env a rest st' c' h with h1 | h2
      · exact hsub h1
      · exact .inr h2

theorem syncAccount_calls_sub (env : Env) (sf : Option String) (a : String)
    (st : SyncState) (c' : AgentCall)
    (h : c' ∈ (syncAccount env sf a st).state.calls) :
    c' ∈ st.calls ∨ c' = .folderList a
      ∨ ∃ f, (c' = .envelopeList a f ∨ ∃ id, c' = .messageRead id f a) := by
  revert h
  cases sf with
  | some folder =>
    intro h
    rcases syncFolderList_calls_sub env a [folder] st c' h with h1 | h2
    · exact .inl h1
    · exact .inr (.inr h2)
  | none =>
    unfold syncAccount
    cases hl : env.agent.folderList a with
    | error err =>
      intro h
      rcases List.mem_append.mp h with h1 | h2
      · exact .inl h1
      · exact .inr (.inl (List.mem_singleton.mp h2))
    | ok folders =>
      by_cases hw : env.writeOk (.folders a)
      · simp only [hw, if_true]
        intro h
        rcases syncFolderList_calls_sub env a (folders.map Folder.name) _ c' h
          with h1 | h2
        · rcases List.mem_append.mp h1 with h3 | h4
          · exact .inl h3
          · exact .inr (.inl (List.mem_singleton.mp h4))
        · exact .inr (.inr h2)
      · simp only [hw, if_false]
        intro h
        rcases List.mem_append.mp h with h1 | h2
        · exact .inl h1
        · exact .inr (.inl (List.mem_singleton.mp h2))

/-- When the sync is folder-scoped, the per-account step issues no
folder-list call at all. -/
theorem syncAccount_some_calls_sub (env : Env) (folder a : String)
    (st : SyncState) (c' : AgentCall)
    (h : c' ∈ (syncAccount env (some folder) a st).state.calls) :
    c' ∈ st.calls
      ∨ ∃ f, (c' = .envelopeList a f ∨ ∃ id, c' = .messageRead id f a) :=
  syncFolderList_calls_sub env a [folder] st c' h

theorem syncAccountList_calls_sub (env : Env) (sf : Option String) :
    ∀ (accs : List String) (st : SyncState) (c' : AgentCall),
      c' ∈ (syncAccountList env sf accs st).state.calls →
      c' ∈ st.calls ∨ (∃ a, c' = .folderList a)
        ∨ ∃ a f, (c' = .envelopeList a f ∨ ∃ id, c' = .messageRead id f a)
  | [], _, _, h => .inl h
  | a' :: rest, st, c', h => by
    revert h
    unfold syncAccountList
    rcases hsa : syncAccount env sf a' st with ⟨err?, st'⟩
    have hsub : c' ∈ st'.calls →
        c' ∈ st.calls ∨ (∃ a, c' = .folderList a)
          ∨ ∃ a f, (c' = .envelopeList a f ∨ ∃ id, c' = .messageRead id f a) := by
      intro h1
      rcases syncAccount_calls_sub env sf a' st c' (by rw [hsa]; exact h1) with
        ha | hb | hc
      exacts [.inl ha, .inr (.inl ⟨a', hb⟩), .inr (.inr ⟨a', hc⟩)]
    cases err? with
    | some e => exact hsub
    | none =>
      intro h
      rcases syncAccountList_calls_sub env sf rest st' c' h with h1 | h2
      · exact hsub h1
      · exact .inr h2

theorem syncAccountList_some_calls_sub (env : Env) (folder : String) :
    ∀ (accs : List String) (st : SyncState) (c' : AgentCall),
      c' ∈ (syncAccountList env (some folder) accs st).state.calls →
      c' ∈ st.calls
        ∨ ∃ a f, (c' = .envelopeList a f ∨ ∃ id, c' = .messageRead id f a)
  | [], _, _, h => .inl h
  | a' :: rest, st, c', h => by
    revert h
    unfold syncAccountList
    rcases hsa : syncAccount env (some folder) a' st with ⟨err?, st'⟩
    have hsub : c' ∈ st'.calls →
        c' ∈ st.calls
          ∨ ∃ a f, (c' = .envelopeList a f ∨ ∃ id, c' = .messageRead id f a) := by
      intro h1
      rcases syncAccount_some_calls_sub env folder a' st c' (by rw [hsa]; exact h1)
        with ha | hb
      exacts [.inl ha, .inr ⟨a', hb⟩]
    cases err? with
    | some e => exact hsub
    | none =>
      intro h
      rcases syncAccountList_some_calls_sub env folder rest st' c' h with h1 | h2
      · exact hsub h1
      · exact .inr h2

theorem foldl_stepFS_pres (env : Env) (a f : String) {p : CachePath}
    (hmeta : ∀ x y id, p ≠ .meta x y id) (hmsg : ∀ x y id, p ≠ .message x y id) :
    ∀ (l : List Envelope) (fs : FS),
      l.foldl (stepFS env a f) fs p = fs p
  | [], _ => rfl
  | e :: rest, fs => by
    rw [List.foldl_cons, foldl_stepFS_pres env a f hmeta hmsg rest _,
      stepFS_frame env a f fs e (hmeta _ _ _) (hmsg _ _ _)]

theorem syncFolder_fs_pres (env : Env) (a f : String) (st : SyncState)
    {p : CachePath} (hmeta : ∀ x y id, p ≠ .meta x y id)
    (hmsg : ∀ x y id, p ≠ .message x y id)
    (henv : ∀ x y, p ≠ .envelopes x y) :
    (syncFolder env a f st).state.fs p = st.fs p := by
  unfold syncFolder
  cases he : env.agent.envelopeList a f with
  | error err => rfl
  | ok envs =>
    cases hw : env.writeOk (.envelopes a f) with
    | true =>
      simp only [hw, if_true]
      rw [foldl_fs_eq, foldl_stepFS_pres env a f hmeta hmsg envs _]
      exact fsWrite_ne _ _ _ (henv a f)
    | false =>
      simp only [hw]
      rfl

theorem syncFolderList_fs_pres (env : Env) (a : String) {p : CachePath}
    (hmeta : ∀ x y id, p ≠ .meta x y id)
    (hmsg : ∀ x y id, p ≠ .message x y id)
    (henv : ∀ x y, p ≠ .envelopes x y) :
    ∀ (fls : List String) (st : SyncState),
      (syncFolderList env a fls st).state.fs p = st.fs p
  | [], _ => rfl
  | f' :: rest, st => by
    unfold syncFolderList
    rcases hsf : syncFolder env a f' st with ⟨err?, st'⟩
    have hst' : st'.fs p = st.fs p := by
      have := syncFolder_fs_pres env a f' st hmeta hmsg henv
      rw [hsf] at this
      exact this
    cases err? with
    | some e => exact hst'
    | none =>
      rw [syncFolderList_fs_pres env a hmeta hmsg henv rest st', hst']

theorem syncAccount_fs_pres (env : Env) (sf : Option String) (a : String)
    (st : SyncState) {p : CachePath}
    (hmeta : ∀ x y id, p ≠ .meta x y id)
    (hmsg : ∀ x y id, p ≠ .message x y id)
    (henv : ∀ x y, p ≠ .envelopes x y)
    (hfold : ∀ x, p ≠ .folders x) :
    (syncAccount env sf a st).state.fs p = st.fs p := by
  cases sf with
  | some folder => exact syncFolderList_fs_pres env a hmeta hmsg henv [folder] st
  | none =>
    unfold syncAccount
    cases hl : env.agent.folderList a with
    | error err => rfl
    | ok folders =>
      cases hw : env.writeOk (.folders a) with
      | true =>
        simp only [hw, if_true]
        rw [syncFolderList_fs_pres env a hmeta hmsg henv (folders.map Folder.name) _]
        exact fsWrite_ne _ _ _ (hfold a)
      | false =>
        simp only [hw]
        rfl

/-- When the sync is folder-scoped, the per-account step also leaves
every folder-list file untouched. -/
theorem syncAccount_some_fs_pres (env : Env) (folder a : String)
    (st : SyncState) {p : CachePath}
    (hmeta : ∀ x y id, p ≠ .meta x y id)
    (hmsg : ∀ x y id, p ≠ .message x y id)
    (henv : ∀ x y, p ≠ .envelopes x y) :
    (syncAccount env (some folder) a st).state.fs p = st.fs p :=
  syncFolderList_fs_pres env a hmeta hmsg henv [folder] st

theorem syncAccountList_fs_pres (env : Env) (sf : Option String)
    {p : CachePath} (hmeta : ∀ x y id, p ≠ .meta x y id)
    (hmsg : ∀ x y id, p ≠ .message x y id)
    (henv : ∀ x y, p ≠ .envelopes x y)
    (hfold : ∀ x, p ≠ .folders x) :
    ∀ (accs : List String) (st : SyncState),
      (syncAccountList env sf accs st).state.fs p = st.fs p
  | [], _ => rfl
  | a' :: rest, st => by
    unfold syncAccountList
    rcases hsa : syncAccount env sf a' st with ⟨err?, st'⟩
    have hst' : st'.fs p = st.fs p := by
      have := syncAccount_fs_pres env sf a' st hmeta hmsg henv hfold
      rw [hsa] at this
      exact this
    cases err? with
    | some e => exact hst'
    | none =>
      rw [syncAccountList_fs_pres env sf hmeta hmsg henv hfold rest st', hst']

theorem syncAccountList_some_fs_pres (env : Env) (folder : String)
    {p : CachePath} (hmeta : ∀ x y id, p ≠ .meta x y id)
    (hmsg : ∀ x y id, p ≠ .message x y id)
    (henv : ∀ x y, p ≠ .envelopes x y) :
    ∀ (accs : List String) (st : SyncState),
      (syncAccountList env (some folder) accs st).state.fs p = st.fs p
  | [], _ => rfl
  | a' :: rest, st => by
    unfold syncAccountList
    rcases hsa : syncAccount env (some folder) a' st with ⟨err?, st'⟩
    have hst' : st'.fs p = st.fs p := by
      have := syncAccount_some_fs_pres env folder a' st hmeta hmsg henv
      rw [hsa] at this
      exact this
    cases err? with
    | some e => exact hst'
    | none =>
      rw [syncAccountList_some_fs_pres env folder hmeta hmsg henv rest st', hst']

/-- C7: a sync scoped to one named account issues no account-list fetch
and leaves the account-list file unchanged; scoped additionally to one
named folder, it issues no folder-list fetch and leaves every account's
folder-list file unchanged. -/
theorem c7_scoped_sync_no_refetch_no_overwrite :
    (∀ (env : Env) (fs0 : FS) (account : String) (folderScope : Option String),
      AgentCall.accountList
          ∉ (run_sync env ⟨some account, folderScope⟩ fs0).state.calls ∧
        (run_sync env ⟨some account, folderScope⟩ fs0).state.fs .accounts
          = fs0 .accounts) ∧
    (∀ (env : Env) (fs0 : FS) (account folder : String),
      (∀ x, AgentCall.folderList x
          ∉ (run_sync env ⟨some account, some folder⟩ fs0).state.calls) ∧
        (∀ x, (run_sync env ⟨some account, some folder⟩ fs0).state.fs
            (.folders x) = fs0 (.folders x))) := by
  constructor
  · intro env fs0 account folderScope
    unfold run_sync
    rw [if_neg (by simp)]
    cases hroot : env.rootOk with
    | false => exact ⟨List.not_mem_nil _, rfl⟩
    | true =>
      simp only [if_true]
      constructor
      · intro h
        rcases syncAccountList_calls_sub env folderScope [account] _ _ h with
          h1 | ⟨x, h2⟩ | ⟨x, y, h3 | ⟨idv, h4⟩⟩
        · exact List.not_mem_nil _ h1
        · simp at h2
        · simp at h3
        · simp at h4
      · exact syncAccountList_fs_pres env folderScope (by simp) (by simp)
          (by simp) (by simp) [account] _
  · intro env fs0 account folder
    unfold run_sync
    rw [if_neg (by simp)]
    cases hroot : env.rootOk with
    | false => exact ⟨fun x => List.not_mem_nil _, fun x => rfl⟩
    | true =>
      simp only [if_true]
      constructor
      · intro x h
        rcases syncAccountList_some_calls_sub env folder [account] _ _ h with
          h1 | ⟨a', f', h3 | ⟨idv, h4⟩⟩
        · exact List.not_mem_nil _ h1
        · simp at h3
        · simp at h4
      · intro x
        exact syncAccountList_some_fs_pres env folder (by simp) (by simp)
          (by simp) [account] _

/-- C7 witness: the account+folder-scoped statement at a concrete
environment. -/
theorem c7_scoped_sync_no_refetch_no_overwrite_witness :
    AgentCall.accountList
        ∉ (run_sync ⟨agentOkEmpty, true, fun _ => true⟩
            ⟨some "w", some "INBOX"⟩ (fun _ => none)).state.calls ∧
      (run_sync ⟨agentOkEmpty, true, fun _ => true⟩
          ⟨some "w", some "INBOX"⟩ (fun _ => none)).state.fs .accounts
        = ((fun _ => none : FS)) .accounts :=
  c7_scoped_sync_no_refetch_no_overwrite.1 ⟨agentOkEmpty, true, fun _ => true⟩
    (fun _ => none) "w" (some "INBOX")

/-- C8: a failed metadata write warns, identifying the envelope, and
skips the body step for that envelope only — the step leaves the
filesystem and call trace untouched — and the cache files and agent calls
produced for the sibling envelopes of the same folder are exactly those
of the fan-out without the failing envelope. -/
theorem c8_meta_write_failure_skips_body_only :
    (∀ (env : Env) (account folder : String) (st : SyncState) (e : Envelope),
      env.writeOk (.meta account folder e.id) = false →
      processEnvelope env account folder st e
        = { st with
            warnings := st.warnings ++ [.writeMeta account folder e.id] }) ∧
    (∀ (env : Env) (account folder : String) (st : SyncState) (e : Envelope)
        (l1 l2 : List Envelope),
      env.writeOk (.meta account folder e.id) = false →
      ((l1 ++ e :: l2).foldl (processEnvelope env account folder) st).fs
          = ((l1 ++ l2).foldl (processEnvelope env account folder) st).fs ∧
        ((l1 ++ e :: l2).foldl (processEnvelope env account folder) st).calls
          = ((l1 ++ l2).foldl (processEnvelope env account folder) st).calls) := by
  have hstep : ∀ (env : Env) (account folder : String) (st : SyncState)
      (e : Envelope), env.writeOk (.meta account folder e.id) = false →
      processEnvelope env account folder st e
        = { st with
            warnings := st.warnings ++ [.writeMeta account folder e.id] } := by
    intro env account folder st e hw
    rw [processEnvelope_eq, stepFS_not_writeOk env account folder st.fs e hw]
    simp [callDelta, warnDelta, hw]
  refine ⟨hstep, ?_⟩
  intro env account folder st e l1 l2 hw
  rw [List.foldl_append, List.foldl_append, List.foldl_cons,
    hstep env account folder _ e hw]
  constructor
  · simp only [foldl_fs_eq]
  · simp only [foldl_calls_eq, foldl_fs_eq]

/-- C8 witness: a concrete environment rejecting exactly the metadata
path of envelope "1"; the step only warns, and the fan-out over
[e1, e2] produces the same files and calls as over [e2] alone. -/
theorem c8_meta_write_failure_skips_body_only_witness :
    (Env.writeOk ⟨agentOkEmpty, true, fun p => decide (p ≠ .meta "a" "f" "1")⟩
        (.meta "a" "f" sampleOld.id) = false) ∧
    processEnvelope ⟨agentOkEmpty, true, fun p => decide (p ≠ .meta "a" "f" "1")⟩
        "a" "f" ⟨fun _ => none, true, [], []⟩ sampleOld
      = ⟨fun _ => none, true, [], [.writeMeta "a" "f" "1"]⟩ ∧
    ([sampleOld, sampleNew].foldl
        (processEnvelope
          ⟨agentOkEmpty, true, fun p => decide (p ≠ .meta "a" "f" "1")⟩ "a" "f")
        ⟨fun _ => none, true, [], []⟩).fs
      = ([sampleNew].foldl
          (processEnvelope
            ⟨agentOkEmpty, true, fun p => decide (p ≠ .meta "a" "f" "1")⟩ "a" "f")
          ⟨fun _ => none, true, [], []⟩).fs :=
  ⟨by decide,
    c8_meta_write_failure_skips_body_only.1
      ⟨agentOkEmpty, true, fun p => decide (p ≠ .meta "a" "f" "1")⟩
      "a" "f" ⟨fun _ => none, true, [], []⟩ sampleOld (by decide),
    (c8_meta_write_failure_skips_body_only.2
      ⟨agentOkEmpty, true, fun p => decide (p ≠ .meta "a" "f" "1")⟩
      "a" "f" ⟨fun _ => none, true, [], []⟩ sampleOld [] [sampleNew]
      (by decide)).1⟩

end HimalayaCache
